import Mathlib

/-!
Verification of the ESTEIRA → MicrowaveVM compiler repository.

The repository ships `src/driver.c` (the command-line front-end around
`yyparse`) and the Bison token header `src/parser.tab.h`. The driver is
embedded here faithfully; the parser / syntax-directed translator, whose
implementation is not in the repository, is modelled from the
specification's emission rules where a claim needs it.
-/

namespace Esteira

/-! ## Driver embedding (from `src/driver.c`)

`main` interacts with the outside world through `fopen`, `fprintf`,
`perror` and `yyparse`. Those interactions are abstracted into an oracle:
`FS` says which paths open for reading / writing and what `strerror`
returns, `Parse` says what `yyparse` returns and which lines its
reductions write to `out` while it runs. The result of a run records the
exit code, the final content of the output file (when it was created),
the lines written to standard error, and which streams were opened and
closed. -/

/-- File-system oracle: which paths `fopen` succeeds on, and the
`strerror(errno)` text `perror` would append after a failing path. -/
structure FS where
  readOpens : String → Bool
  writeOpens : String → Bool
  errnoMsg : String

/-- Oracle for `yyparse`: its return value and the lines its semantic
actions write to the output stream while parsing. -/
structure Parse where
  res : Int
  emitted : List String

/-- Observable outcome of one run of `main`. `inName = none` means the
scanner reads standard input (`yyin` left unset). -/
structure DriverResult where
  exitCode : Int
  inName : Option String
  outName : String
  outCreated : Bool
  outLines : List String
  errLines : List String
  inOpened : Bool
  inClosed : Bool
  outOpened : Bool
  outClosed : Bool
  deriving DecidableEq

/-- `perror(s)` writes `s`, then `": "`, then `strerror(errno)`. -/
def perrorLine (s msg : String) : String := s ++ ": " ++ msg

/-- The banner comment `main` writes before invoking the parser. -/
def banner : String := "; Codigo gerado pela linguagem ESTEIRA para MicrowaveVM"

/-- The part of `main` after the input file is settled: open `out_name`
for writing (closing `yyin` and returning 1 on failure), write the
banner, run `yyparse`, report `Falha na compilacao` on non-zero result,
always append `HALT`, close both streams, return the parser's result. -/
def mainOpened (yyinName : Option String) (out_name : String) (fs : FS) (p : Parse) :
    DriverResult :=
  if fs.writeOpens out_name then
    { exitCode := p.res
      inName := yyinName
      outName := out_name
      outCreated := true
      outLines := banner :: (p.emitted ++ ["HALT"])
      errLines := if p.res = 0 then [] else ["Falha na compilacao"]
      inOpened := yyinName.isSome
      inClosed := yyinName.isSome
      outOpened := true
      outClosed := true }
  else
    { exitCode := 1
      inName := yyinName
      outName := out_name
      outCreated := false
      outLines := []
      errLines := [perrorLine out_name fs.errnoMsg]
      inOpened := yyinName.isSome
      inClosed := yyinName.isSome
      outOpened := false
      outClosed := false }

/-- Body of `main` once the two optional arguments are extracted:
`in_name` is the optional source path (absent means standard input),
`out_arg` the optional output path defaulting to `programa.mwasm`. A
source path that does not open is reported with `perror` and ends the
run with exit code 1 before the output file is touched. -/
def mainArgs (in_name out_arg : Option String) (fs : FS) (p : Parse) : DriverResult :=
  match in_name with
  | some n =>
    if fs.readOpens n then
      mainOpened (some n) (out_arg.getD "programa.mwasm") fs p
    else
      { exitCode := 1
        inName := some n
        outName := out_arg.getD "programa.mwasm"
        outCreated := false
        outLines := []
        errLines := [perrorLine n fs.errnoMsg]
        inOpened := false
        inClosed := false
        outOpened := false
        outClosed := false }
  | none => mainOpened none (out_arg.getD "programa.mwasm") fs p

/-- `main` from `src/driver.c`: the `argc >= 2` / `argc >= 3` checks
amount to reading `argv.get? 1` and `argv.get? 2`. -/
def main (argv : List String) (fs : FS) (p : Parse) : DriverResult :=
  mainArgs (argv.get? 1) (argv.get? 2) fs p

/-- The output path `main` uses for a given argument vector. -/
def outPath (argv : List String) : String := (argv.get? 2).getD "programa.mwasm"

/-- Whether the input side succeeds for a given optional source path:
either no path was given (standard input) or the path opens for
reading. -/
def inputOKArg (in_name : Option String) (fs : FS) : Bool :=
  match in_name with
  | some n => fs.readOpens n
  | none => true

/-- `inputOKArg` at the source path `main` extracts from `argv`. -/
def inputOK (argv : List String) (fs : FS) : Bool :=
  inputOKArg (argv.get? 1) fs

/-- Whether a line starts with the driver's failure diagnostic
`Falha na compilacao`, compared character by character. -/
def startsWithFalha (l : String) : Bool :=
  "Falha na compilacao".toList.isPrefixOf l.toList

/-! Concrete oracles used by the witness theorems. -/

/-- A file system on which every open succeeds. -/
def fsAll : FS := ⟨fun _ => true, fun _ => true, "No such file or directory"⟩

/-- A file system on which reads fail and writes succeed. -/
def fsNoRead : FS := ⟨fun _ => false, fun _ => true, "No such file or directory"⟩

/-- A successful parse that emitted one instruction line. -/
def pOK : Parse := ⟨0, ["POWERON"]⟩

/-- A failed parse that had already emitted one instruction line. -/
def pFail : Parse := ⟨1, ["POWERON"]⟩

/-! ## Unfolding lemmas for the driver -/

/-- `mainOpened` when the output file opens. -/
theorem mainOpened_pos (yn : Option String) (onm : String) (fs : FS) (p : Parse)
    (h : fs.writeOpens onm = true) :
    mainOpened yn onm fs p =
      { exitCode := p.res
        inName := yn
        outName := onm
        outCreated := true
        outLines := banner :: (p.emitted ++ ["HALT"])
        errLines := if p.res = 0 then [] else ["Falha na compilacao"]
        inOpened := yn.isSome
        inClosed := yn.isSome
        outOpened := true
        outClosed := true } := by
  rw [mainOpened, if_pos h]

/-- `mainOpened` when the output file does not open. -/
theorem mainOpened_neg (yn : Option String) (onm : String) (fs : FS) (p : Parse)
    (h : ¬ fs.writeOpens onm = true) :
    mainOpened yn onm fs p =
      { exitCode := 1
        inName := yn
        outName := onm
        outCreated := false
        outLines := []
        errLines := [perrorLine onm fs.errnoMsg]
        inOpened := yn.isSome
        inClosed := yn.isSome
        outOpened := false
        outClosed := false } := by
  rw [mainOpened, if_neg h]

/-- `mainArgs` with no source path goes straight to `mainOpened`. -/
theorem mainArgs_none (outA : Option String) (fs : FS) (p : Parse) :
    mainArgs none outA fs p = mainOpened none (outA.getD "programa.mwasm") fs p := rfl

/-- `mainArgs` with a source path that opens. -/
theorem mainArgs_some_pos (n : String) (outA : Option String) (fs : FS) (p : Parse)
    (h : fs.readOpens n = true) :
    mainArgs (some n) outA fs p =
      mainOpened (some n) (outA.getD "programa.mwasm") fs p := by
  simp only [mainArgs]
  rw [if_pos h]

/-- `mainArgs` with a source path that does not open. -/
theorem mainArgs_some_neg (n : String) (outA : Option String) (fs : FS) (p : Parse)
    (h : ¬ fs.readOpens n = true) :
    mainArgs (some n) outA fs p =
      { exitCode := 1
        inName := some n
        outName := outA.getD "programa.mwasm"
        outCreated := false
        outLines := []
        errLines := [perrorLine n fs.errnoMsg]
        inOpened := false
        inClosed := false
        outOpened := false
        outClosed := false } := by
  simp only [mainArgs]
  rw [if_neg h]

/-- The output file content always ends with the appended `HALT` line. -/
theorem halt_last (p : Parse) :
    (banner :: (p.emitted ++ ["HALT"])).getLast? = some "HALT" := by
  rw [show banner :: (p.emitted ++ ["HALT"]) = (banner :: p.emitted) ++ ["HALT"] by simp]
  rw [List.getLast?_append_of_ne_nil _ (by simp)]
  simp

/-- `outName` of `mainOpened` is the requested path on both branches. -/
theorem mainOpened_outName (yn : Option String) (onm : String) (fs : FS) (p : Parse) :
    (mainOpened yn onm fs p).outName = onm := by
  by_cases hw : fs.writeOpens onm = true
  · rw [mainOpened_pos yn onm fs p hw]
  · rw [mainOpened_neg yn onm fs p hw]

/-- `inName` of `mainOpened` is the requested source on both branches. -/
theorem mainOpened_inName (yn : Option String) (onm : String) (fs : FS) (p : Parse) :
    (mainOpened yn onm fs p).inName = yn := by
  by_cases hw : fs.writeOpens onm = true
  · rw [mainOpened_pos yn onm fs p hw]
  · rw [mainOpened_neg yn onm fs p hw]

/-- Banner-and-`HALT` shape of the output, at the `mainOpened` level. -/
theorem mainOpened_banner_halt (yn : Option String) (onm : String) (fs : FS) (p : Parse)
    (h : (mainOpened yn onm fs p).outCreated = true) :
    (mainOpened yn onm fs p).outLines.head? = some banner ∧
    (mainOpened yn onm fs p).outLines.getLast? = some "HALT" := by
  by_cases hw : fs.writeOpens onm = true
  · rw [mainOpened_pos yn onm fs p hw]
    exact ⟨rfl, halt_last p⟩
  · rw [mainOpened_neg yn onm fs p hw] at h
    simp at h

/-- Banner-and-`HALT` shape of the output, at the `mainArgs` level. -/
theorem mainArgs_banner_halt (inN outA : Option String) (fs : FS) (p : Parse)
    (h : (mainArgs inN outA fs p).outCreated = true) :
    (mainArgs inN outA fs p).outLines.head? = some banner ∧
    (mainArgs inN outA fs p).outLines.getLast? = some "HALT" := by
  cases inN with
  | none =>
    rw [mainArgs_none] at h ⊢
    exact mainOpened_banner_halt none _ fs p h
  | some n =>
    by_cases hr : fs.readOpens n = true
    · rw [mainArgs_some_pos n outA fs p hr] at h ⊢
      exact mainOpened_banner_halt (some n) _ fs p h
    · rw [mainArgs_some_neg n outA fs p hr] at h
      simp at h

/-- Exit-code characterisation at the `mainArgs` level. -/
theorem mainArgs_exit_zero (inN outA : Option String) (fs : FS) (p : Parse) :
    (mainArgs inN outA fs p).exitCode = 0 ↔
      (inputOKArg inN fs = true ∧
       fs.writeOpens (outA.getD "programa.mwasm") = true ∧ p.res = 0) := by
  cases inN with
  | none =>
    rw [mainArgs_none]
    by_cases hw : fs.writeOpens (outA.getD "programa.mwasm") = true
    · rw [mainOpened_pos none _ fs p hw]
      simp [inputOKArg, hw]
    · rw [mainOpened_neg none _ fs p hw]
      simp [inputOKArg, hw]
  | some n =>
    by_cases hr : fs.readOpens n = true
    · rw [mainArgs_some_pos n outA fs p hr]
      by_cases hw : fs.writeOpens (outA.getD "programa.mwasm") = true
      · rw [mainOpened_pos (some n) _ fs p hw]
        simp [inputOKArg, hr, hw]
      · rw [mainOpened_neg (some n) _ fs p hw]
        simp [inputOKArg, hw]
    · rw [mainArgs_some_neg n outA fs p hr]
      simp [inputOKArg, hr]

/-- Parse-failure reporting at the `mainArgs` level. -/
theorem mainArgs_falha (inN outA : Option String) (fs : FS) (p : Parse)
    (hin : inputOKArg inN fs = true)
    (hout : fs.writeOpens (outA.getD "programa.mwasm") = true)
    (hres : p.res ≠ 0) :
    (mainArgs inN outA fs p).errLines = ["Falha na compilacao"] ∧
    (mainArgs inN outA fs p).outCreated = true ∧
    (mainArgs inN outA fs p).outLines.getLast? = some "HALT" := by
  cases inN with
  | none =>
    rw [mainArgs_none, mainOpened_pos none _ fs p hout]
    refine ⟨?_, rfl, halt_last p⟩
    show (if p.res = 0 then [] else ["Falha na compilacao"]) = ["Falha na compilacao"]
    rw [if_neg hres]
  | some n =>
    have hr : fs.readOpens n = true := by simpa [inputOKArg] using hin
    rw [mainArgs_some_pos n outA fs p hr, mainOpened_pos (some n) _ fs p hout]
    refine ⟨?_, rfl, halt_last p⟩
    show (if p.res = 0 then [] else ["Falha na compilacao"]) = ["Falha na compilacao"]
    rw [if_neg hres]

/-- Stream bookkeeping at the `mainArgs` level. -/
theorem mainArgs_closed (inN outA : Option String) (fs : FS) (p : Parse) :
    (mainArgs inN outA fs p).inClosed = (mainArgs inN outA fs p).inOpened ∧
    (mainArgs inN outA fs p).outClosed = (mainArgs inN outA fs p).outOpened := by
  have key : ∀ yn : Option String,
      (mainOpened yn (outA.getD "programa.mwasm") fs p).inClosed =
          (mainOpened yn (outA.getD "programa.mwasm") fs p).inOpened ∧
      (mainOpened yn (outA.getD "programa.mwasm") fs p).outClosed =
          (mainOpened yn (outA.getD "programa.mwasm") fs p).outOpened := by
    intro yn
    by_cases hw : fs.writeOpens (outA.getD "programa.mwasm") = true
    · rw [mainOpened_pos yn _ fs p hw]
      exact ⟨rfl, rfl⟩
    · rw [mainOpened_neg yn _ fs p hw]
      exact ⟨rfl, rfl⟩
  cases inN with
  | none =>
    rw [mainArgs_none]
    exact key none
  | some n =>
    by_cases hr : fs.readOpens n = true
    · rw [mainArgs_some_pos n outA fs p hr]
      exact key (some n)
    · rw [mainArgs_some_neg n outA fs p hr]
      exact ⟨rfl, rfl⟩

/-! ## Driver theorems for the claims -/

/-- C1: whenever the output file is successfully opened, the text
written to it begins with the banner line and its last line is `HALT`,
for every parse result and every sequence of parser-emitted lines
(in particular whether or not the source contained `PARAR;`). -/
theorem banner_first_halt_last (argv : List String) (fs : FS) (p : Parse)
    (h : (main argv fs p).outCreated = true) :
    (main argv fs p).outLines.head? = some banner ∧
    (main argv fs p).outLines.getLast? = some "HALT" :=
  mainArgs_banner_halt (argv.get? 1) (argv.get? 2) fs p h

/-- C1 witness at a concrete invocation. -/
theorem banner_first_halt_last_witness :
    (main ["esteira"] fsAll pOK).outLines.head? = some banner ∧
    (main ["esteira"] fsAll pOK).outLines.getLast? = some "HALT" :=
  banner_first_halt_last ["esteira"] fsAll pOK rfl

/-- C2: `main` returns 0 exactly when the input side succeeds, the
output file opens, and `yyparse` returns 0; it returns a non-zero value
in every other case. -/
theorem exit_code_zero_iff (argv : List String) (fs : FS) (p : Parse) :
    (main argv fs p).exitCode = 0 ↔
      (inputOK argv fs = true ∧
       fs.writeOpens (outPath argv) = true ∧ p.res = 0) :=
  mainArgs_exit_zero (argv.get? 1) (argv.get? 2) fs p

/-- C2 witness at a concrete invocation: the equivalence instantiated
and its right-hand side discharged. -/
theorem exit_code_zero_iff_witness :
    (main ["esteira", "forno.est"] fsAll pOK).exitCode = 0 :=
  (exit_code_zero_iff ["esteira", "forno.est"] fsAll pOK).mpr ⟨rfl, rfl, rfl⟩

/-- C3 counterexample: with an unopenable input file the invocation
fails (exit code 1), yet no standard-error line starts with
`Falha na compilacao` (the diagnostic is `perror`'s path-prefixed
message) and no output file is created at all, so no preserved output
ends in `HALT`. -/
theorem falha_counterexample :
    (main ["esteira", "forno.est"] fsNoRead pOK).exitCode ≠ 0 ∧
    ((main ["esteira", "forno.est"] fsNoRead pOK).errLines.all
      (fun l => !(startsWithFalha l))) = true ∧
    (main ["esteira", "forno.est"] fsNoRead pOK).outCreated = false :=
  ⟨by decide, by decide, by decide⟩

/-- C3 amended: when both files open and `yyparse` returns non-zero,
the line `Falha na compilacao` is written to standard error and the
already-emitted output file is preserved and terminated with a final
`HALT` line; open failures are instead reported through `perror`. -/
theorem falha_on_parse_failure (argv : List String) (fs : FS) (p : Parse)
    (hin : inputOK argv fs = true)
    (hout : fs.writeOpens (outPath argv) = true)
    (hres : p.res ≠ 0) :
    (main argv fs p).errLines = ["Falha na compilacao"] ∧
    (main argv fs p).outCreated = true ∧
    (main argv fs p).outLines.getLast? = some "HALT" :=
  mainArgs_falha (argv.get? 1) (argv.get? 2) fs p hin hout hres

/-- C3 amended witness at a concrete invocation. -/
theorem falha_on_parse_failure_witness :
    (main ["esteira"] fsAll pFail).errLines = ["Falha na compilacao"] ∧
    (main ["esteira"] fsAll pFail).outCreated = true ∧
    (main ["esteira"] fsAll pFail).outLines.getLast? = some "HALT" :=
  falha_on_parse_failure ["esteira"] fsAll pFail rfl rfl (by decide)

/-- C7: on every exit path of `main`, a stream is closed exactly when it
was successfully opened — in particular every successfully opened file
is closed before `main` returns. -/
theorem streams_closed (argv : List String) (fs : FS) (p : Parse) :
    (main argv fs p).inClosed = (main argv fs p).inOpened ∧
    (main argv fs p).outClosed = (main argv fs p).outOpened :=
  mainArgs_closed (argv.get? 1) (argv.get? 2) fs p

/-- C8: with no arguments the source is standard input (`yyin` unset)
and the output path is `programa.mwasm`; with one argument the output
path is still `programa.mwasm`; with two arguments `argv[1]` is opened
for reading and `argv[2]` for writing. -/
theorem cli_arguments (a0 a1 a2 : String) (fs : FS) (p : Parse)
    (h1 : fs.readOpens a1 = true) (h2 : fs.writeOpens a2 = true) :
    (main [a0] fs p).inName = none ∧
    (main [a0] fs p).outName = "programa.mwasm" ∧
    (main [a0, a1] fs p).outName = "programa.mwasm" ∧
    (main [a0, a1, a2] fs p).inName = some a1 ∧
    (main [a0, a1, a2] fs p).inOpened = true ∧
    (main [a0, a1, a2] fs p).outName = a2 ∧
    (main [a0, a1, a2] fs p).outOpened = true := by
  have e1 : main [a0] fs p = mainOpened none "programa.mwasm" fs p := rfl
  have e2 : main [a0, a1] fs p = mainArgs (some a1) none fs p := rfl
  have e3 : main [a0, a1, a2] fs p = mainArgs (some a1) (some a2) fs p := rfl
  rw [mainArgs_some_pos a1 none fs p h1] at e2
  rw [mainArgs_some_pos a1 (some a2) fs p h1] at e3
  rw [mainOpened_pos (some a1) ((some a2).getD "programa.mwasm") fs p h2] at e3
  refine ⟨?_, ?_, ?_, ?_, ?_, ?_, ?_⟩
  · rw [e1, mainOpened_inName]
  · rw [e1, mainOpened_outName]
  · rw [e2, mainOpened_outName]
    rfl
  · rw [e3]
  · rw [e3]
    rfl
  · rw [e3]
    rfl
  · rw [e3]

/-- C8 witness at concrete arguments. -/
theorem cli_arguments_witness :
    (main ["esteira"] fsAll pOK).inName = none ∧
    (main ["esteira"] fsAll pOK).outName = "programa.mwasm" ∧
    (main ["esteira", "forno.est"] fsAll pOK).outName = "programa.mwasm" ∧
    (main ["esteira", "forno.est", "forno.mwasm"] fsAll pOK).inName = some "forno.est" ∧
    (main ["esteira", "forno.est", "forno.mwasm"] fsAll pOK).inOpened = true ∧
    (main ["esteira", "forno.est", "forno.mwasm"] fsAll pOK).outName = "forno.mwasm" ∧
    (main ["esteira", "forno.est", "forno.mwasm"] fsAll pOK).outOpened = true :=
  cli_arguments "esteira" "forno.est" "forno.mwasm" fsAll pOK rfl rfl

/-- C9: an unopenable source path makes `main` return 1 right after the
`perror` report, with no output file created — in particular neither the
banner nor any `HALT` line is produced. -/
theorem input_open_failure (a0 a1 : String) (rest : List String) (fs : FS) (p : Parse)
    (h : fs.readOpens a1 = false) :
    (main (a0 :: a1 :: rest) fs p).exitCode = 1 ∧
    (main (a0 :: a1 :: rest) fs p).outCreated = false ∧
    (main (a0 :: a1 :: rest) fs p).outLines = [] ∧
    (main (a0 :: a1 :: rest) fs p).errLines = [perrorLine a1 fs.errnoMsg] := by
  have e : main (a0 :: a1 :: rest) fs p = mainArgs (some a1) (rest.get? 0) fs p := rfl
  rw [mainArgs_some_neg a1 (rest.get? 0) fs p (by simp [h])] at e
  rw [e]
  exact ⟨rfl, rfl, rfl, rfl⟩

/-- C9 witness at a concrete invocation. -/
theorem input_open_failure_witness :
    (main ["esteira", "forno.est"] fsNoRead pOK).exitCode = 1 ∧
    (main ["esteira", "forno.est"] fsNoRead pOK).outCreated = false ∧
    (main ["esteira", "forno.est"] fsNoRead pOK).outLines = [] ∧
    (main ["esteira", "forno.est"] fsNoRead pOK).errLines =
      [perrorLine "forno.est" fsNoRead.errnoMsg] :=
  input_open_failure "esteira" "forno.est" [] fsNoRead pOK rfl

/-- C10: the whole observable behaviour of `main` — output file content,
standard-error text, exit code, stream bookkeeping — depends only on
`argv[1]` and `argv[2]`; arguments from `argv[3]` on are ignored. -/
theorem argv_tail_irrelevant (argv argv' : List String) (fs : FS) (p : Parse)
    (h1 : argv.get? 1 = argv'.get? 1) (h2 : argv.get? 2 = argv'.get? 2) :
    main argv fs p = main argv' fs p := by
  rw [main, main, h1, h2]

/-- C10 witness: two concrete argument vectors agreeing on `argv[1]` and
`argv[2]` but differing beyond (and in the program name) produce
identical results. -/
theorem argv_tail_irrelevant_witness :
    main ["esteira", "forno.est", "forno.mwasm", "extra", "junk"] fsAll pOK =
      main ["compilador", "forno.est", "forno.mwasm"] fsAll pOK :=
  argv_tail_irrelevant _ _ fsAll pOK rfl rfl

/-! ## Parser / syntax-directed translator, modelled from the spec

The parser, scanner and emitter sources are not in the repository — only
the driver and the Bison token header are. The definitions below are a
model of the missing translator, built from the specification's grammar
(section 4.4), its syntax-directed emission rules, its unit normalisation
table, and the label generator contract (section 4.3). Name resolution is
abstracted as a total symbol environment built from the declaration
list. -/

/-- Modelled from the spec: the unit suffixes the scanner recognises
(section 4.1). `minU` stands for the `min` suffix. -/
inductive USuffix
  | kmh
  | mps
  | percent
  | graus
  | bpm
  | km
  | m
  | minU
  | s
  | ms
  deriving DecidableEq

/-- Modelled from the spec: the conversion factor of each unit suffix to
its canonical unit (the normalisation table of section 4.4). -/
def unitFactor : USuffix → ℚ
  | .kmh => 1000 / 3600
  | .mps => 1
  | .percent => 1 / 100
  | .graus => 1
  | .bpm => 1
  | .km => 1000
  | .m => 1
  | .minU => 60000
  | .s => 1000
  | .ms => 1

/-- Modelled from the spec: a numeric literal bearing a unit suffix is
multiplied by the factor to its canonical unit at emit time; a bare
literal is left unchanged. -/
def normLit (v : ℚ) : Option USuffix → ℚ
  | none => v
  | some u => v * unitFactor u

/-- Modelled from the spec: the storage slots `LOAD`/`STORE` name
(section 6.2): hardware registers `R0..R3`, memory cells `MEM[k]`, and
plain variables `VAR_<name>`. -/
inductive Slot
  | reg (k : Fin 4)
  | mem (i : ℤ)
  | var (name : String)
  deriving DecidableEq

/-- Modelled from the spec: the MicrowaveVM instructions and label
definitions the emitter writes, one per output line (section 6.2). -/
inductive Instr
  | PUSH (v : ℚ)
  | PUSHS (s : String)
  | LOAD (slot : Slot)
  | STORE (slot : Slot)
  | ADD
  | SUB
  | MUL
  | DIV
  | NEG
  | CMPEQ
  | CMPNE
  | CMPLT
  | CMPGT
  | CMPLE
  | CMPGE
  | JZ (l : Nat)
  | JNZ (l : Nat)
  | JMP (l : Nat)
  | READSENS (name : String)
  | POWERON
  | POWEROFF
  | START
  | SETPARAM (name : String)
  | PRINT (n : Nat)
  | BEEP
  | SLEEP
  | HALT
  | LABEL (l : Nat)
  deriving DecidableEq

/-- Modelled from the spec: the binary operators of the expression
grammar (comparisons and arithmetic; `&&` and `||` are separate because
they short-circuit). -/
inductive BinOp
  | add
  | sub
  | mul
  | div
  | eq
  | ne
  | lt
  | gt
  | le
  | ge
  deriving DecidableEq

/-- Modelled from the spec: the instruction emitted for each binary
operator once both operands are on the stack. -/
def binInstr : BinOp → Instr
  | .add => .ADD
  | .sub => .SUB
  | .mul => .MUL
  | .div => .DIV
  | .eq => .CMPEQ
  | .ne => .CMPNE
  | .lt => .CMPLT
  | .gt => .CMPGT
  | .le => .CMPLE
  | .ge => .CMPGE

/-- Modelled from the spec: the expression grammar of section 4.4. -/
inductive Expr
  | intLit (v : ℤ) (u : Option USuffix)
  | floatLit (v : ℚ) (u : Option USuffix)
  | strLit (s : String)
  | etrue
  | efalse
  | sensor (name : String)
  | ident (name : String)
  | uminus (e : Expr)
  | uplus (e : Expr)
  | bin (op : BinOp) (a b : Expr)
  | land (a b : Expr)
  | lor (a b : Expr)

/-- Modelled from the spec: the statement grammar of section 4.4; a
block is a statement list, and an absent `SENAO` is the empty else
block. -/
inductive Stmt
  | assign (name : String) (e : Expr)
  | seStmt (cond : Expr) (thenB elseB : List Stmt)
  | enquanto (cond : Expr) (body : List Stmt)
  | mostrar (args : List Expr)
  | bip
  | ligar
  | desligar
  | iniciar
  | parar
  | esperar (e : Expr)
  | definir (name : String) (e : Expr)

/-- Modelled from the spec: expression code generation. Literals are
pushed after unit normalisation, identifiers load their backing slot,
`&&`/`||` short-circuit through two freshly allocated labels each, and
the label counter is threaded left to right in emission order. -/
def compileExpr (st : String → Slot) : Expr → Nat → List Instr × Nat
  | .intLit v u, n => ([.PUSH (normLit (v : ℚ) u)], n)
  | .floatLit v u, n => ([.PUSH (normLit v u)], n)
  | .strLit s, n => ([.PUSHS s], n)
  | .etrue, n => ([.PUSH 1], n)
  | .efalse, n => ([.PUSH 0], n)
  | .sensor nm, n => ([.READSENS nm], n)
  | .ident nm, n => ([.LOAD (st nm)], n)
  | .uminus e, n =>
      let r := compileExpr st e n
      (r.1 ++ [.NEG], r.2)
  | .uplus e, n => compileExpr st e n
  | .bin op a b, n =>
      let ra := compileExpr st a n
      let rb := compileExpr st b ra.2
      (ra.1 ++ rb.1 ++ [binInstr op], rb.2)
  | .land a b, n =>
      let ra := compileExpr st a n
      let rb := compileExpr st b (ra.2 + 1)
      (ra.1 ++ [.JZ ra.2] ++ rb.1 ++
        [.JMP rb.2, .LABEL ra.2, .PUSH 0, .LABEL rb.2], rb.2 + 1)
  | .lor a b, n =>
      let ra := compileExpr st a n
      let rb := compileExpr st b (ra.2 + 1)
      (ra.1 ++ [.JNZ ra.2] ++ rb.1 ++
        [.JMP rb.2, .LABEL ra.2, .PUSH 1, .LABEL rb.2], rb.2 + 1)

/-- Modelled from the spec: `MOSTRAR`'s arguments compiled in order. -/
def compileExprs (st : String → Slot) : List Expr → Nat → List Instr × Nat
  | [], n => ([], n)
  | e :: rest, n =>
      let r1 := compileExpr st e n
      let r2 := compileExprs st rest r1.2
      (r1.1 ++ r2.1, r2.2)

mutual

/-- Modelled from the spec: statement code generation (the emission
rules of section 4.4), threading the label counter. -/
def compileStmt (st : String → Slot) : Stmt → Nat → List Instr × Nat
  | .assign nm e, n =>
      let r := compileExpr st e n
      (r.1 ++ [.STORE (st nm)], r.2)
  | .seStmt cond tB eB, n =>
      let rc := compileExpr st cond n
      let rt := compileStmts st tB (rc.2 + 1)
      let re := compileStmts st eB (rt.2 + 1)
      (rc.1 ++ [.JZ rc.2] ++ rt.1 ++ [.JMP rt.2, .LABEL rc.2] ++
        re.1 ++ [.LABEL rt.2], re.2)
  | .enquanto cond body, n =>
      let rc := compileExpr st cond (n + 1)
      let rb := compileStmts st body (rc.2 + 1)
      ([.LABEL n] ++ rc.1 ++ [.JZ rc.2] ++ rb.1 ++
        [.JMP n, .LABEL rc.2], rb.2)
  | .mostrar args, n =>
      let r := compileExprs st args n
      (r.1 ++ [.PRINT args.length], r.2)
  | .bip, n => ([.BEEP], n)
  | .ligar, n => ([.POWERON], n)
  | .desligar, n => ([.POWEROFF], n)
  | .iniciar, n => ([.START], n)
  | .parar, n => ([.HALT], n)
  | .esperar e, n =>
      let r := compileExpr st e n
      (r.1 ++ [.SLEEP], r.2)
  | .definir nm e, n =>
      let r := compileExpr st e n
      (r.1 ++ [.SETPARAM nm], r.2)

/-- Modelled from the spec: a statement list compiled in order. -/
def compileStmts (st : String → Slot) : List Stmt → Nat → List Instr × Nat
  | [], n => ([], n)
  | sHead :: rest, n =>
      let r1 := compileStmt st sHead n
      let r2 := compileStmts st rest r1.2
      (r1.1 ++ r2.1, r2.2)

end

/-- Modelled from the spec: the type keywords. -/
inductive Ty
  | tint
  | tfloat
  | tbool
  | tstring
  deriving DecidableEq

/-- Modelled from the spec: the declaration forms of section 4.4:
variables with optional initialiser, register aliases, memory-cell
aliases. -/
inductive Decl
  | varDecl (ty : Ty) (name : String) (init : Option Expr)
  | regDecl (k : Fin 4) (name : String)
  | memDecl (idx : ℤ) (name : String)

/-- Modelled from the spec: the symbol environment built from the
declarations, mapping each declared name to its backing slot; an
undeclared name falls back to its own variable slot. -/
def stOf : List Decl → String → Slot
  | [], nm => .var nm
  | .varDecl _ n _ :: rest, nm => if nm = n then .var n else stOf rest nm
  | .regDecl k n :: rest, nm => if nm = n then .reg k else stOf rest nm
  | .memDecl i n :: rest, nm => if nm = n then .mem i else stOf rest nm

/-- Modelled from the spec: code emitted while reducing a declaration —
an initialiser compiles its expression and stores it; pure aliases emit
nothing. -/
def compileDecl (st : String → Slot) : Decl → Nat → List Instr × Nat
  | .varDecl _ nm (some e), n =>
      let r := compileExpr st e n
      (r.1 ++ [.STORE (st nm)], r.2)
  | .varDecl _ _ none, n => ([], n)
  | .regDecl _ _, n => ([], n)
  | .memDecl _ _, n => ([], n)

/-- Modelled from the spec: the declaration list compiled in order. -/
def compileDecls (st : String → Slot) : List Decl → Nat → List Instr × Nat
  | [], n => ([], n)
  | d :: rest, n =>
      let r1 := compileDecl st d n
      let r2 := compileDecls st rest r1.2
      (r1.1 ++ r2.1, r2.2)

/-- Modelled from the spec: a source program
`ESTEIRA name { decl* stmt* }`. -/
structure Program where
  name : String
  decls : List Decl
  stmts : List Stmt

/-- Modelled from the spec: the instruction sequence the parser's
reductions emit for a whole program, and the final label counter; labels
start at 0 (section 4.3). -/
def compileProgram (p : Program) : List Instr × Nat :=
  let st := stOf p.decls
  let rd := compileDecls st p.decls 0
  let rs := compileStmts st p.stmts rd.2
  (rd.1 ++ rs.1, rs.2)

/-- Render a rational the way the emitter prints numbers: integers
without a fractional part. -/
def ratStr (q : ℚ) : String :=
  if q.den = 1 then toString q.num else toString q

/-- Modelled from the spec: textual form of a slot (section 6.2). -/
def slotStr : Slot → String
  | .reg k => "R" ++ toString k.val
  | .mem i => "MEM[" ++ toString i ++ "]"
  | .var nm => "VAR_" ++ nm

/-- Modelled from the spec: one output line per instruction, labels on
their own lines terminated by `:` (sections 4.5 and 6.2). -/
def renderInstr : Instr → String
  | .PUSH v => "PUSH " ++ ratStr v
  | .PUSHS s => "PUSHS \"" ++ s ++ "\""
  | .LOAD sl => "LOAD " ++ slotStr sl
  | .STORE sl => "STORE " ++ slotStr sl
  | .ADD => "ADD"
  | .SUB => "SUB"
  | .MUL => "MUL"
  | .DIV => "DIV"
  | .NEG => "NEG"
  | .CMPEQ => "CMPEQ"
  | .CMPNE => "CMPNE"
  | .CMPLT => "CMPLT"
  | .CMPGT => "CMPGT"
  | .CMPLE => "CMPLE"
  | .CMPGE => "CMPGE"
  | .JZ l => "JZ L" ++ toString l
  | .JNZ l => "JNZ L" ++ toString l
  | .JMP l => "JMP L" ++ toString l
  | .READSENS nm => "READSENS " ++ nm
  | .POWERON => "POWERON"
  | .POWEROFF => "POWEROFF"
  | .START => "START"
  | .SETPARAM nm => "SETPARAM " ++ nm
  | .PRINT n => "PRINT " ++ toString n
  | .BEEP => "BEEP"
  | .SLEEP => "SLEEP"
  | .HALT => "HALT"
  | .LABEL l => "L" ++ toString l ++ ":"

/-- Modelled from the spec: the full text of one compilation as the
driver writes it — banner, the parser-emitted body, final `HALT`. -/
def programOutput (p : Program) : List String :=
  banner :: ((compileProgram p).1.map renderInstr ++ ["HALT"])

/-! ## Claim C4: one-to-one translation of control statements -/

/-- The five argumentless control statements of claim C4. -/
def isCtrl : Stmt → Bool
  | .ligar => true
  | .desligar => true
  | .bip => true
  | .iniciar => true
  | .parar => true
  | _ => false

/-- The mnemonic each control statement translates to (section 4.4);
statements outside the fragment are mapped arbitrarily to `HALT` and
are excluded by the `isCtrl` hypothesis wherever this is used. -/
def ctrlMnemonic : Stmt → Instr
  | .ligar => .POWERON
  | .desligar => .POWEROFF
  | .bip => .BEEP
  | .iniciar => .START
  | _ => .HALT

/-- A list of control statements compiles to exactly their mnemonics,
allocating no labels. -/
theorem compileStmts_ctrl (st : String → Slot) : ∀ (ss : List Stmt) (n : Nat),
    (∀ s ∈ ss, isCtrl s = true) →
    compileStmts st ss n = (ss.map ctrlMnemonic, n)
  | [], _, _ => rfl
  | sHead :: rest, n, h => by
    have hs : isCtrl sHead = true := h sHead (by simp)
    have h1 : compileStmt st sHead n = ([ctrlMnemonic sHead], n) := by
      cases sHead <;> simp_all [isCtrl, compileStmt, ctrlMnemonic]
    have h2 := compileStmts_ctrl st rest n (fun s hm => h s (by simp [hm]))
    simp [compileStmts, h1, h2]

/-- C4: a program whose statement list consists solely of `LIGAR;`,
`DESLIGAR;`, `BIP;`, `INICIAR;`, `PARAR;` compiles to the banner line,
then the one-to-one mnemonic translation of the statements in source
order, then the final `HALT` line. -/
theorem ctrl_round_trip (nm : String) (ss : List Stmt)
    (h : ∀ s ∈ ss, isCtrl s = true) :
    programOutput ⟨nm, [], ss⟩ =
      [banner] ++ ss.map (fun s => renderInstr (ctrlMnemonic s)) ++ ["HALT"] := by
  have hc : compileProgram ⟨nm, [], ss⟩ = (ss.map ctrlMnemonic, 0) := by
    simp [compileProgram, compileDecls, compileStmts_ctrl (stOf []) ss 0 h]
  simp [programOutput, hc]

/-- C4 witness: a concrete all-control program. -/
theorem ctrl_round_trip_witness :
    programOutput ⟨"forno", [], [.ligar, .bip, .iniciar, .parar, .desligar]⟩ =
      [banner] ++
        [Stmt.ligar, Stmt.bip, Stmt.iniciar, Stmt.parar, Stmt.desligar].map
          (fun s => renderInstr (ctrlMnemonic s)) ++ ["HALT"] :=
  ctrl_round_trip "forno" [.ligar, .bip, .iniciar, .parar, .desligar] (by decide)

/-! ## Claim C5: unit normalisation -/

/-- C5: a unit-suffixed numeric literal is multiplied by the fixed
factor to its canonical unit at emit time — `min` by 60000 and `s` by
1000 to milliseconds, `km` by 1000 to metres, `km/h` by 1000/3600 to
metres per second, `%` by 1/100 — `ESPERAR(2 s);` emits `PUSH 2000`
then `SLEEP`, and literals already in canonical units (`m/s`, `m`,
`ms`) are emitted unchanged. -/
theorem unit_normalisation (st : String → Slot) (v : ℚ) (n : Nat) :
    compileExpr st (.floatLit v (some .minU)) n = ([.PUSH (v * 60000)], n) ∧
    compileExpr st (.floatLit v (some .s)) n = ([.PUSH (v * 1000)], n) ∧
    compileExpr st (.floatLit v (some .km)) n = ([.PUSH (v * 1000)], n) ∧
    compileExpr st (.floatLit v (some .kmh)) n = ([.PUSH (v * (1000 / 3600))], n) ∧
    compileExpr st (.floatLit v (some .percent)) n = ([.PUSH (v * (1 / 100))], n) ∧
    compileStmt st (.esperar (.intLit 2 (some .s))) n = ([.PUSH 2000, .SLEEP], n) ∧
    compileExpr st (.floatLit v (some .mps)) n = ([.PUSH v], n) ∧
    compileExpr st (.floatLit v (some .m)) n = ([.PUSH v], n) ∧
    compileExpr st (.floatLit v (some .ms)) n = ([.PUSH v], n) := by
  refine ⟨rfl, rfl, rfl, rfl, rfl, ?_, ?_, ?_, ?_⟩
  · simp only [compileStmt, compileExpr]
    norm_num [normLit, unitFactor]
  · simp [compileExpr, normLit, unitFactor]
  · simp [compileExpr, normLit, unitFactor]
  · simp [compileExpr, normLit, unitFactor]

/-! ## Claim C6: label discipline -/

/-- How many times `Lk:` is defined in a code list. -/
def labelDefCount (k : Nat) (code : List Instr) : Nat :=
  code.countP (fun i => decide (i = Instr.LABEL k))

/-- The label an instruction jumps to, if it is a jump. -/
def jumpTarget : Instr → Option Nat
  | .JZ l => some l
  | .JNZ l => some l
  | .JMP l => some l
  | _ => none

/-- All labels referenced by `JZ`, `JNZ` or `JMP` in a code list. -/
def jumpTargets (code : List Instr) : List Nat :=
  code.filterMap jumpTarget

/-- Label discipline of a fragment compiled from counter `c` up to
`c'`: every label ordinal in `[c, c')` is defined exactly once, no
other label is defined, and every jump references a label in
`[c, c')`. -/
def labelsOK (c c' : Nat) (code : List Instr) : Prop :=
  c ≤ c' ∧
  (∀ k, labelDefCount k code = if c ≤ k ∧ k < c' then 1 else 0) ∧
  (∀ k ∈ jumpTargets code, c ≤ k ∧ k < c')

theorem labelDefCount_nil (k : Nat) : labelDefCount k [] = 0 := rfl

theorem labelDefCount_cons (k : Nat) (i : Instr) (code : List Instr) :
    labelDefCount k (i :: code) =
      labelDefCount k code + (if i = Instr.LABEL k then 1 else 0) := by
  rw [labelDefCount, labelDefCount, List.countP_cons]
  congr 1
  simp

theorem labelDefCount_append (k : Nat) (A B : List Instr) :
    labelDefCount k (A ++ B) = labelDefCount k A + labelDefCount k B :=
  List.countP_append _ _ _

theorem jumpTargets_nil : jumpTargets [] = [] := rfl

theorem jumpTargets_append (A B : List Instr) :
    jumpTargets (A ++ B) = jumpTargets A ++ jumpTargets B :=
  List.filterMap_append _ _ _

/-- Sequential composition of label-disciplined fragments. -/
theorem labelsOK_append {c c1 c2 : Nat} {A B : List Instr}
    (hA : labelsOK c c1 A) (hB : labelsOK c1 c2 B) :
    labelsOK c c2 (A ++ B) := by
  obtain ⟨hle, hdef, href⟩ := hA
  obtain ⟨hle', hdef', href'⟩ := hB
  refine ⟨hle.trans hle', ?_, ?_⟩
  · intro k
    rw [labelDefCount_append, hdef k, hdef' k]
    split_ifs <;> omega
  · intro k hk
    rw [jumpTargets_append, List.mem_append] at hk
    rcases hk with hk | hk
    · have := href k hk
      omega
    · have := href' k hk
      omega

/-- A fragment with no labels and no jumps is disciplined on the empty
window. -/
theorem labelsOK_clean (c : Nat) {code : List Instr}
    (h : ∀ i ∈ code, jumpTarget i = none ∧ ∀ k, i ≠ Instr.LABEL k) :
    labelsOK c c code := by
  refine ⟨le_refl c, ?_, ?_⟩
  · intro k
    have h0 : labelDefCount k code = 0 := by
      rw [labelDefCount, List.countP_eq_zero]
      intro i hi
      simpa using (h i hi).2 k
    rw [h0, if_neg (by omega)]
  · intro k hk
    rw [jumpTargets, List.mem_filterMap] at hk
    obtain ⟨i, hi, hji⟩ := hk
    rw [(h i hi).1] at hji
    cases hji

/-- Label discipline of the short-circuit shape shared by `&&` and
`||`: operand `A`, a conditional jump to the fresh label `A2`, operand
`B`, then `JMP B2`, `LA2:`, a constant push, `LB2:`. -/
theorem labelsOK_shortcircuit {n : Nat} {A1 B1 : List Instr} {A2 B2 : Nat}
    (jmp push : Instr)
    (hj : jumpTarget jmp = some A2) (hjl : ∀ k, jmp ≠ Instr.LABEL k)
    (hp : jumpTarget push = none) (hpl : ∀ k, push ≠ Instr.LABEL k)
    (hA : labelsOK n A2 A1) (hB : labelsOK (A2 + 1) B2 B1) :
    labelsOK n (B2 + 1)
      (A1 ++ [jmp] ++ B1 ++
        [Instr.JMP B2, Instr.LABEL A2, push, Instr.LABEL B2]) := by
  obtain ⟨ha1, ha2, ha3⟩ := hA
  obtain ⟨hb1, hb2, hb3⟩ := hB
  refine ⟨by omega, ?_, ?_⟩
  · intro k
    simp only [labelDefCount_append, labelDefCount_cons, labelDefCount_nil,
      Instr.LABEL.injEq, ha2 k, hb2 k]
    rw [if_neg (hjl k), if_neg (hpl k),
      if_neg (show ¬ (Instr.JMP B2 = Instr.LABEL k) by simp)]
    split_ifs <;> omega
  · intro k hk
    rw [jumpTargets_append, jumpTargets_append, jumpTargets_append] at hk
    have t1 : jumpTargets [jmp] = [A2] := by
      rw [jumpTargets, List.filterMap_cons, List.filterMap_nil, hj]
    have t2 : jumpTargets
        [Instr.JMP B2, Instr.LABEL A2, push, Instr.LABEL B2] = [B2] := by
      rw [jumpTargets, List.filterMap_cons, List.filterMap_cons, List.filterMap_cons,
        List.filterMap_cons, List.filterMap_nil, hp]
      rfl
    rw [t1, t2] at hk
    simp only [List.mem_append, List.mem_singleton] at hk
    rcases hk with ((hk | hk) | hk) | hk
    · have := ha3 k hk
      omega
    · omega
    · have := hb3 k hk
      omega
    · omega

/-- Label discipline of the `SE/SENAO` shape: condition, `JZ LC2`, then
branch, `JMP LT2`, `LC2:`, else branch, `LT2:`. -/
theorem labelsOK_ifelse {n : Nat} {C1 T1 E1 : List Instr} {C2 T2 E2 : Nat}
    (hC : labelsOK n C2 C1) (hT : labelsOK (C2 + 1) T2 T1)
    (hE : labelsOK (T2 + 1) E2 E1) :
    labelsOK n E2
      (C1 ++ [Instr.JZ C2] ++ T1 ++ [Instr.JMP T2, Instr.LABEL C2] ++
        E1 ++ [Instr.LABEL T2]) := by
  obtain ⟨hc1, hc2, hc3⟩ := hC
  obtain ⟨ht1, ht2, ht3⟩ := hT
  obtain ⟨he1, he2, he3⟩ := hE
  refine ⟨by omega, ?_, ?_⟩
  · intro k
    simp only [labelDefCount_append, labelDefCount_cons, labelDefCount_nil,
      Instr.LABEL.injEq, hc2 k, ht2 k, he2 k]
    rw [if_neg (show ¬ (Instr.JZ C2 = Instr.LABEL k) by simp),
      if_neg (show ¬ (Instr.JMP T2 = Instr.LABEL k) by simp)]
    split_ifs <;> omega
  · intro k hk
    rw [jumpTargets_append, jumpTargets_append, jumpTargets_append,
      jumpTargets_append, jumpTargets_append] at hk
    have t1 : jumpTargets [Instr.JZ C2] = [C2] := rfl
    have t2 : jumpTargets [Instr.JMP T2, Instr.LABEL C2] = [T2] := rfl
    have t3 : jumpTargets [Instr.LABEL T2] = [] := rfl
    rw [t1, t2, t3] at hk
    simp only [List.mem_append, List.mem_singleton, List.not_mem_nil,
      or_false] at hk
    rcases hk with (((hk | hk) | hk) | hk) | hk
    · have := hc3 k hk
      omega
    · omega
    · have := ht3 k hk
      omega
    · omega
    · have := he3 k hk
      omega

/-- Label discipline of the `ENQUANTO` shape: `Ln:`, condition,
`JZ LC2`, body, `JMP Ln`, `LC2:`. -/
theorem labelsOK_while {n : Nat} {C1 B1 : List Instr} {C2 B2 : Nat}
    (hC : labelsOK (n + 1) C2 C1) (hB : labelsOK (C2 + 1) B2 B1) :
    labelsOK n B2
      ([Instr.LABEL n] ++ C1 ++ [Instr.JZ C2] ++ B1 ++
        [Instr.JMP n, Instr.LABEL C2]) := by
  obtain ⟨hc1, hc2, hc3⟩ := hC
  obtain ⟨hb1, hb2, hb3⟩ := hB
  refine ⟨by omega, ?_, ?_⟩
  · intro k
    simp only [labelDefCount_append, labelDefCount_cons, labelDefCount_nil,
      Instr.LABEL.injEq, hc2 k, hb2 k]
    rw [if_neg (show ¬ (Instr.JZ C2 = Instr.LABEL k) by simp),
      if_neg (show ¬ (Instr.JMP n = Instr.LABEL k) by simp)]
    split_ifs <;> omega
  · intro k hk
    rw [jumpTargets_append, jumpTargets_append, jumpTargets_append,
      jumpTargets_append] at hk
    have t0 : jumpTargets [Instr.LABEL n] = [] := rfl
    have t1 : jumpTargets [Instr.JZ C2] = [C2] := rfl
    have t2 : jumpTargets [Instr.JMP n, Instr.LABEL C2] = [n] := rfl
    rw [t0, t1, t2] at hk
    simp only [List.mem_append, List.mem_singleton, List.not_mem_nil,
      false_or] at hk
    rcases hk with ((hk | hk) | hk) | hk
    · have := hc3 k hk
      omega
    · omega
    · have := hb3 k hk
      omega
    · omega

/-- Expression code generation is label-disciplined. -/
theorem compileExpr_labelsOK (st : String → Slot) : ∀ (e : Expr) (n : Nat),
    labelsOK n (compileExpr st e n).2 (compileExpr st e n).1
  | .intLit v u, n => labelsOK_clean n (by simp [compileExpr, jumpTarget])
  | .floatLit v u, n => labelsOK_clean n (by simp [compileExpr, jumpTarget])
  | .strLit s, n => labelsOK_clean n (by simp [compileExpr, jumpTarget])
  | .etrue, n => labelsOK_clean n (by simp [compileExpr, jumpTarget])
  | .efalse, n => labelsOK_clean n (by simp [compileExpr, jumpTarget])
  | .sensor nm, n => labelsOK_clean n (by simp [compileExpr, jumpTarget])
  | .ident nm, n => labelsOK_clean n (by simp [compileExpr, jumpTarget])
  | .uminus e, n => by
    have ih := compileExpr_labelsOK st e n
    simp only [compileExpr]
    exact labelsOK_append ih (labelsOK_clean _ (by simp [jumpTarget]))
  | .uplus e, n => compileExpr_labelsOK st e n
  | .bin op a b, n => by
    have iha := compileExpr_labelsOK st a n
    have ihb := compileExpr_labelsOK st b (compileExpr st a n).2
    simp only [compileExpr]
    refine labelsOK_append (labelsOK_append iha ihb) (labelsOK_clean _ ?_)
    cases op <;> simp [jumpTarget, binInstr]
  | .land a b, n => by
    have iha := compileExpr_labelsOK st a n
    have ihb := compileExpr_labelsOK st b ((compileExpr st a n).2 + 1)
    simp only [compileExpr]
    exact labelsOK_shortcircuit (Instr.JZ (compileExpr st a n).2) (Instr.PUSH 0)
      rfl (by simp) rfl (by simp) iha ihb
  | .lor a b, n => by
    have iha := compileExpr_labelsOK st a n
    have ihb := compileExpr_labelsOK st b ((compileExpr st a n).2 + 1)
    simp only [compileExpr]
    exact labelsOK_shortcircuit (Instr.JNZ (compileExpr st a n).2) (Instr.PUSH 1)
      rfl (by simp) rfl (by simp) iha ihb

/-- Argument lists compile label-disciplined. -/
theorem compileExprs_labelsOK (st : String → Slot) : ∀ (es : List Expr) (n : Nat),
    labelsOK n (compileExprs st es n).2 (compileExprs st es n).1
  | [], n => labelsOK_clean n (by simp [compileExprs])
  | e :: rest, n => by
    have ih1 := compileExpr_labelsOK st e n
    have ih2 := compileExprs_labelsOK st rest (compileExpr st e n).2
    simp only [compileExprs]
    exact labelsOK_append ih1 ih2

mutual

/-- Statement code generation is label-disciplined. -/
theorem compileStmt_labelsOK (st : String → Slot) : ∀ (s : Stmt) (n : Nat),
    labelsOK n (compileStmt st s n).2 (compileStmt st s n).1
  | .assign nm e, n => by
    have ih := compileExpr_labelsOK st e n
    simp only [compileStmt]
    exact labelsOK_append ih (labelsOK_clean _ (by simp [jumpTarget]))
  | .seStmt cond tB eB, n => by
    have ihc := compileExpr_labelsOK st cond n
    have iht := compileStmts_labelsOK st tB ((compileExpr st cond n).2 + 1)
    have ihe := compileStmts_labelsOK st eB
      ((compileStmts st tB ((compileExpr st cond n).2 + 1)).2 + 1)
    simp only [compileStmt]
    exact labelsOK_ifelse ihc iht ihe
  | .enquanto cond body, n => by
    have ihc := compileExpr_labelsOK st cond (n + 1)
    have ihb := compileStmts_labelsOK st body ((compileExpr st cond (n + 1)).2 + 1)
    simp only [compileStmt]
    exact labelsOK_while ihc ihb
  | .mostrar args, n => by
    have ih := compileExprs_labelsOK st args n
    simp only [compileStmt]
    exact labelsOK_append ih (labelsOK_clean _ (by simp [jumpTarget]))
  | .bip, n => labelsOK_clean n (by simp [compileStmt, jumpTarget])
  | .ligar, n => labelsOK_clean n (by simp [compileStmt, jumpTarget])
  | .desligar, n => labelsOK_clean n (by simp [compileStmt, jumpTarget])
  | .iniciar, n => labelsOK_clean n (by simp [compileStmt, jumpTarget])
  | .parar, n => labelsOK_clean n (by simp [compileStmt, jumpTarget])
  | .esperar e, n => by
    have ih := compileExpr_labelsOK st e n
    simp only [compileStmt]
    exact labelsOK_append ih (labelsOK_clean _ (by simp [jumpTarget]))
  | .definir nm e, n => by
    have ih := compileExpr_labelsOK st e n
    simp only [compileStmt]
    exact labelsOK_append ih (labelsOK_clean _ (by simp [jumpTarget]))

/-- Statement lists compile label-disciplined. -/
theorem compileStmts_labelsOK (st : String → Slot) : ∀ (ss : List Stmt) (n : Nat),
    labelsOK n (compileStmts st ss n).2 (compileStmts st ss n).1
  | [], n => labelsOK_clean n (by simp [compileStmts])
  | sHead :: rest, n => by
    have ih1 := compileStmt_labelsOK st sHead n
    have ih2 := compileStmts_labelsOK st rest (compileStmt st sHead n).2
    simp only [compileStmts]
    exact labelsOK_append ih1 ih2

end

/-- Declaration code generation is label-disciplined. -/
theorem compileDecl_labelsOK (st : String → Slot) : ∀ (d : Decl) (n : Nat),
    labelsOK n (compileDecl st d n).2 (compileDecl st d n).1
  | .varDecl _ nm (some e), n => by
    have ih := compileExpr_labelsOK st e n
    simp only [compileDecl]
    exact labelsOK_append ih (labelsOK_clean _ (by simp [jumpTarget]))
  | .varDecl _ _ none, n => labelsOK_clean n (by simp [compileDecl])
  | .regDecl _ _, n => labelsOK_clean n (by simp [compileDecl])
  | .memDecl _ _, n => labelsOK_clean n (by simp [compileDecl])

/-- Declaration lists compile label-disciplined. -/
theorem compileDecls_labelsOK (st : String → Slot) : ∀ (ds : List Decl) (n : Nat),
    labelsOK n (compileDecls st ds n).2 (compileDecls st ds n).1
  | [], n => labelsOK_clean n (by simp [compileDecls])
  | d :: rest, n => by
    have ih1 := compileDecl_labelsOK st d n
    have ih2 := compileDecls_labelsOK st rest (compileDecl st d n).2
    simp only [compileDecls]
    exact labelsOK_append ih1 ih2

/-- A whole program's code is label-disciplined from counter 0. -/
theorem compileProgram_labelsOK (p : Program) :
    labelsOK 0 (compileProgram p).2 (compileProgram p).1 := by
  have ih1 := compileDecls_labelsOK (stOf p.decls) p.decls 0
  have ih2 := compileStmts_labelsOK (stOf p.decls) p.stmts
    (compileDecls (stOf p.decls) p.decls 0).2
  simp only [compileProgram]
  exact labelsOK_append ih1 ih2

/-- C6: in the output of every compilation, each label referenced by an
emitted `JZ`, `JNZ` or `JMP` is defined (`Lk:`) exactly once, and the
labels allocated are exactly the ordinals `0, 1, 2, …` below the final
label counter, each defined exactly once. -/
theorem label_discipline (p : Program) :
    (∀ k ∈ jumpTargets (compileProgram p).1,
        labelDefCount k (compileProgram p).1 = 1) ∧
    (∀ k, labelDefCount k (compileProgram p).1 =
        if k < (compileProgram p).2 then 1 else 0) := by
  obtain ⟨h1, h2, h3⟩ := compileProgram_labelsOK p
  constructor
  · intro k hk
    have hr := h3 k hk
    rw [h2 k, if_pos (by omega)]
  · intro k
    rw [h2 k]
    by_cases hk : k < (compileProgram p).2
    · rw [if_pos (by omega), if_pos hk]
    · rw [if_neg (by omega), if_neg hk]

/-- A sample program with a loop, used by the C6 witness. -/
def sampleProgram : Program := ⟨"forno", [], [.enquanto .etrue [.bip]]⟩

/-- C6 witness: the loop-exit label `L1`, referenced by the sample
program's `JZ`, is defined exactly once in its output. -/
theorem label_discipline_witness :
    labelDefCount 1 (compileProgram sampleProgram).1 = 1 :=
  (label_discipline sampleProgram).1 1 (by decide)

end Esteira

